import Mathlib

/-!
# logrus-hook: the buffered writer hook and the MySQL hook

A shallow embedding of `bufferedWriterHook.go` and `logrus-mysql-hook.go`.

* Part 1 embeds `BufferedWriterHook` method by method: every method body runs
  under `s.mu`, so a method call is one atomic state transformer. The state
  records where the `flushLoop` goroutine stands, so that `Stop`, which waits
  for that goroutine while holding `s.mu`, returns only when the goroutine can
  reach its exit. The `bufio.Writer` the hook wraps is embedded operation by
  operation (`Flush`, `Available`, `Buffered`, `Write`), the downstream
  `io.Writer` is a parameter, and the hook records every call it makes on it.
* Part 2 embeds the two `Levels` methods.
* Part 3 embeds the synchronisation skeleton of `Stop` and of the background
  goroutine of each hook as a transition system over program counters, the
  mutex and the two channels, so that interleavings can be examined.
-/

namespace LogrusHook

/-! ## Basic types -/

/-- A byte slice (Go `[]byte`). -/
abbrev Bytes := List (Fin 256)

/-- Go `error` values. `ErrShortWrite` is `io.ErrShortWrite`; every other error
is identified by a code. `Option Error` is a Go `error`, with `none` for `nil`. -/
inductive Error where
  | ErrShortWrite
  | other (code : Nat)
  deriving DecidableEq, Repr

/-- A `logrus.Entry`, reduced to what `Fire` reads of it: the pair returned by
`entry.Bytes()` (the formatter's output and its error). -/
structure Entry where
  bs : Bytes
  err : Option Error
  deriving DecidableEq, Repr

/-- The call `entry.Bytes()`. -/
def Entry.Bytes (entry : Entry) : Bytes × Option Error := (entry.bs, entry.err)

/-- One call `Write(p)` received by the downstream `io.Writer`, with the
result `(n, err)` it returned. -/
structure WriteCall where
  p : Bytes
  n : Nat
  err : Option Error
  deriving DecidableEq, Repr

/-- An `io.Writer`: its answer `(n, err)` to `Write(p)` may depend on the calls
it has received before. The two laws are the `io.Writer` contract:
`0 <= n <= len(p)`, and a non-nil error whenever `n < len(p)`. -/
structure ioWriter where
  Write : List WriteCall → Bytes → Nat × Option Error
  n_le : ∀ h p, (Write h p).1 ≤ p.length
  short : ∀ h p, (Write h p).1 < p.length → (Write h p).2 ≠ none

/-- Perform `wr.Write(p)` on the downstream writer whose history is `log`:
the call is appended to the history and its result returned. -/
def ioWriter.call (W : ioWriter) (log : List WriteCall) (p : Bytes) :
    List WriteCall × Nat × Option Error :=
  let r := W.Write log p
  (log ++ [⟨p, r.1, r.2⟩], r.1, r.2)

/-- A downstream writer that accepts every write in full and without error. -/
def ioWriter.AcceptsAll (W : ioWriter) : Prop :=
  ∀ h p, W.Write h p = (p.length, none)

/-- The bytes the downstream writer has accepted so far, in order. -/
def delivered (log : List WriteCall) : Bytes :=
  (log.map fun c => c.p.take c.n).flatten

/-- The payloads of the write calls the downstream writer has received. -/
def payloads (log : List WriteCall) : List Bytes :=
  log.map WriteCall.p

/-! ## `bufio.Writer` (Go standard library) -/

namespace bufio

/-- The constant `defaultBufSize` of package `bufio`. -/
def defaultBufSize : Nat := 4096

/-- A `bufio.Writer`: `buf` is the filled part `b.buf[0:b.n]`, `size` is
`len(b.buf)`, `err` the sticky error. The wrapped writer `b.wr` is the hook's
downstream writer, whose history is threaded through the operations. -/
structure Writer where
  err : Option Error
  buf : Bytes
  size : Nat
  deriving DecidableEq, Repr

/-- The call `bufio.NewWriterSize(w, size)` for a `w` that is not itself a
`*bufio.Writer`: a non-positive size selects `defaultBufSize`. -/
def NewWriterSize (size : Int) : Writer :=
  { err := none, buf := [], size := if size ≤ 0 then defaultBufSize else size.toNat }

/-- `Available` returns `len(b.buf) - b.n`. -/
def Writer.Available (b : Writer) : Nat := b.size - b.buf.length

/-- `Buffered` returns `b.n`. -/
def Writer.Buffered (b : Writer) : Nat := b.buf.length

/-- `Flush` writes the buffered bytes to the downstream writer. -/
def Writer.Flush (W : ioWriter) (b : Writer) (log : List WriteCall) :
    Writer × List WriteCall × Option Error :=
  match b.err with
  | some e => (b, log, some e)
  | none =>
    if b.buf.length = 0 then (b, log, none)
    else
      let r := W.call log b.buf
      let n := r.2.1
      let err := if n < b.buf.length ∧ r.2.2 = none then some Error.ErrShortWrite else r.2.2
      match err with
      | some e => ({ b with buf := b.buf.drop n, err := some e }, r.1, some e)
      | none => ({ b with buf := [] }, r.1, none)

/-- The loop of `Write`: `for len(p) > b.Available() && b.err == nil`. The
result is the writer, the downstream history, the unconsumed rest of `p` and the
count `nn`; `none` when the iteration budget is exhausted. -/
def Writer.writeLoop (W : ioWriter) :
    Nat → Writer → List WriteCall → Bytes → Nat → Option (Writer × List WriteCall × Bytes × Nat)
  | 0, b, log, p, nn =>
    if p.length > b.Available ∧ b.err = none then none else some (b, log, p, nn)
  | fuel + 1, b, log, p, nn =>
    if p.length > b.Available ∧ b.err = none then
      if b.Buffered = 0 then
        -- Large write, empty buffer: write directly from p.
        let r := W.call log p
        let n := r.2.1
        Writer.writeLoop W fuel { b with err := r.2.2 } r.1 (p.drop n) (nn + n)
      else
        let n := min b.Available p.length
        let r := Writer.Flush W { b with buf := b.buf ++ p.take n } log
        Writer.writeLoop W fuel r.1 r.2.1 (p.drop n) (nn + n)
    else some (b, log, p, nn)

/-- `Write` writes `p` into the buffer, returning `(nn, err)`. Every iteration
of its loop but at most one consumes a byte of `p` or ends the loop, hence the
budget `len(p) + 2` (see `Write_returns`). -/
def Writer.Write (W : ioWriter) (b : Writer) (log : List WriteCall) (p : Bytes) :
    Option (Writer × List WriteCall × Nat × Option Error) :=
  match Writer.writeLoop W (p.length + 2) b log p 0 with
  | none => none
  | some (b1, log1, p1, nn) =>
    match b1.err with
    | some e => some (b1, log1, nn, some e)
    | none =>
      let n := min b1.Available p1.length
      some ({ b1 with buf := b1.buf ++ p1.take n }, log1, nn + n, none)

end bufio

/-! ## Package `time` and the `Clock` interface -/

/-- A `time.Duration`: a count of nanoseconds. -/
abbrev Duration := Int

/-- The constant `time.Second`. -/
def Second : Duration := 1000000000

/-- A `time.Ticker`, reduced to the period it was created with and whether
`Stop` has been called on it. -/
structure Ticker where
  d : Duration
  stopped : Bool
  deriving DecidableEq, Repr

/-- The method `Ticker.Stop`. -/
def Ticker.Stop (t : Ticker) : Ticker := { t with stopped := true }

/-- Implementations of the `Clock` interface: the package's `systemClock`, or a
clock supplied by the caller. -/
inductive Clock where
  | systemClock
  | custom (id : Nat)
  deriving DecidableEq, Repr

/-- The variable `DefaultClock`. -/
def DefaultClock : Clock := Clock.systemClock

/-- The call `Clock.NewTicker(duration)`: a running ticker of that period. The
period is recorded as requested; whether the clock accepts it (`time.NewTicker`
rejects a non-positive one by panicking) lies outside the embedding. -/
def Clock.NewTicker (_c : Clock) (duration : Duration) : Ticker :=
  { d := duration, stopped := false }

/-- A `chan struct{}` that is only ever closed: its state is whether it has
been closed. -/
structure Chan where
  closed : Bool
  deriving DecidableEq, Repr

/-! ## `logrus.Level` -/

/-- The type `logrus.Level` (an unsigned integer). -/
abbrev Level := Nat

def PanicLevel : Level := 0
def FatalLevel : Level := 1
def ErrorLevel : Level := 2
def WarnLevel : Level := 3
def InfoLevel : Level := 4
def DebugLevel : Level := 5
def TraceLevel : Level := 6

/-! ## The background goroutine -/

/-- Program counter of a background goroutine (`flushLoop`, or `flush` of the
MySQL hook). -/
inductive LoopPC where
  /-- At the `select`. -/
  | select
  /-- In `s.Sync(...)`, at its `s.mu.Lock()`. -/
  | syncLock
  /-- In `s.Sync(...)`, holding the mutex. -/
  | syncBody
  /-- At `return`, with the deferred `close(s.done)` still to run. -/
  | closing
  /-- The goroutine has ended. -/
  | exited
  deriving DecidableEq, Repr

/-! ## Part 1: `BufferedWriterHook` -/

def _defaultBufferSize : Int := 256 * 1024

def _defaultFlushInterval : Duration := 10 * Second

/-- The struct `BufferedWriterHook`. The field `Writer` holds the state of the
downstream `io.Writer`, namely the calls this hook has made on it;
`flushLoop` is the program counter of the goroutine started by
`go s.flushLoop()` (`none` before it is started), and `tick` says whether a
tick waits in the channel `s.ticker.C`. A nil pointer or channel is `none`. -/
structure BufferedWriterHook where
  Writer : List WriteCall
  LogLevels : List Level
  Size : Int
  FlushInterval : Duration
  Clock : Option Clock
  initialized : Bool
  stopped : Bool
  writer : Option bufio.Writer
  ticker : Option Ticker
  stop : Option Chan
  done : Option Chan
  flushLoop : Option LoopPC
  tick : Bool
  deriving DecidableEq, Repr

/-- The composite literal `&BufferedWriterHook{...}` over the exported fields:
the unexported fields have their zero values and no call has been made on the
downstream writer. -/
def BufferedWriterHook.literal (LogLevels : List Level) (Size : Int)
    (FlushInterval : Duration) (Clock : Option LogrusHook.Clock) : BufferedWriterHook :=
  { Writer := [], LogLevels := LogLevels, Size := Size, FlushInterval := FlushInterval,
    Clock := Clock, initialized := false, stopped := false, writer := none,
    ticker := none, stop := none, done := none, flushLoop := none, tick := false }

/-- The bytes held in the hook's buffer (none before the buffer exists). -/
def BufferedWriterHook.buffered (s : BufferedWriterHook) : Bytes :=
  match s.writer with
  | some b => b.buf
  | none => []

/-- The method `initialize` (lines 50-71). The new ticker's channel is empty,
and the goroutine it starts stands at the `select` of `flushLoop`. -/
def BufferedWriterHook.initialize (s : BufferedWriterHook) : BufferedWriterHook :=
  let size := if s.Size = 0 then _defaultBufferSize else s.Size
  let flushInterval := if s.FlushInterval = 0 then _defaultFlushInterval else s.FlushInterval
  let clock := match s.Clock with
    | none => DefaultClock
    | some c => c
  { s with
    Clock := some clock
    ticker := some (clock.NewTicker flushInterval)
    writer := some (bufio.NewWriterSize size)
    stop := some { closed := false }
    done := some { closed := false }
    initialized := true
    flushLoop := some LoopPC.select
    tick := false }

/-- The state in which `Fire` finds the hook after the lazy initialization of
lines 83-85. -/
def BufferedWriterHook.ready (s : BufferedWriterHook) : BufferedWriterHook :=
  if !s.initialized then BufferedWriterHook.initialize s else s

/-- The method `Fire` (lines 74-97). The result is the new hook state and the
returned error; `none` stands for a call that does not return (a nil
dereference, or a `Write` that exhausts its budget). -/
def BufferedWriterHook.Fire (W : ioWriter) (s : BufferedWriterHook) (entry : Entry) :
    Option (BufferedWriterHook × Option Error) :=
  match entry.Bytes with
  | (_, some e) => some (s, some e)
  | (bs, none) =>
    let s1 := s.ready
    match s1.writer with
    | none => none
    | some b =>
      let r := if bs.length > b.Available ∧ b.Buffered > 0 then bufio.Writer.Flush W b s1.Writer
               else (b, s1.Writer, none)
      match r.2.2 with
      | some e => some ({ s1 with writer := some r.1, Writer := r.2.1 }, some e)
      | none =>
        match bufio.Writer.Write W r.1 r.2.1 bs with
        | none => none
        | some (b2, log2, _, err) => some ({ s1 with writer := some b2, Writer := log2 }, err)

/-- The method `Sync` (lines 115-125). -/
def BufferedWriterHook.Sync (W : ioWriter) (s : BufferedWriterHook) :
    Option (BufferedWriterHook × Option Error) :=
  if s.initialized then
    match s.writer with
    | none => none
    | some b =>
      let r := bufio.Writer.Flush W b s.Writer
      some ({ s with writer := some r.1, Writer := r.2.1 }, r.2.2)
  else some (s, none)

/-- The receive `<-s.done` of line 167. `Stop` executes it holding `s.mu`,
after `s.ticker.Stop()` and `close(s.stop)`; it completes once `flushLoop` has
run its deferred `close(s.done)`. What `flushLoop` does meanwhile depends on
where it stands:
* parked at its `select` with no tick waiting, it takes the `<-s.stop` case,
  returns and closes `s.done`;
* at the `s.mu.Lock()` of `Sync` (it had taken a tick), it needs the mutex that
  `Stop` holds and cannot move: `s.done` is never closed;
* at its `select` with a tick waiting, the `select` may take either case; the
  embedding follows the tick case, which leads to the previous situation.
The result is `none` when the receive does not complete. -/
def BufferedWriterHook.awaitDone (s : BufferedWriterHook) : Option BufferedWriterHook :=
  match s.done with
  | none => none   -- receive from a nil channel
  | some d =>
    if d.closed then some s
    else
      match s.flushLoop with
      | some LoopPC.select =>
        if s.tick then none
        else some { s with flushLoop := some LoopPC.exited, done := some { closed := true } }
      | _ => none

/-- The method `Stop` (lines 147-176). The result is `none` when the call does
not return: `<-s.done` is executed inside the critical section, so it blocks
forever when `flushLoop` cannot reach its exit without `s.mu`. -/
def BufferedWriterHook.Stop (W : ioWriter) (s : BufferedWriterHook) :
    Option (BufferedWriterHook × Option Error) :=
  if !s.initialized then
    -- the critical section returns at once; the local `stopped` is false
    s.Sync W
  else if s.stopped then
    -- consecutive Stop: no Sync
    some (s, none)
  else
    match s.ticker, s.stop with
    | some t, some c =>
      if c.closed then none   -- close of a closed channel
      else
        match BufferedWriterHook.awaitDone
            { s with stopped := true, ticker := some t.Stop, stop := some { closed := true } } with
        | none => none
        | some s1 => s1.Sync W
    | _, _ => none

/-- The ticker delivers a tick into `s.ticker.C` (a channel of capacity one);
`none` when there is no running ticker or the channel is full. -/
def BufferedWriterHook.tickEvent (s : BufferedWriterHook) : Option BufferedWriterHook :=
  match s.ticker with
  | some t => if !t.stopped && !s.tick then some { s with tick := true } else none
  | none => none

/-- The goroutine `flushLoop`, at its `select`, takes the case `<-s.ticker.C`
(line 134) and stands before `s.Sync()`; `none` when it cannot. -/
def BufferedWriterHook.loopReceive (s : BufferedWriterHook) : Option BufferedWriterHook :=
  match s.flushLoop with
  | some LoopPC.select =>
    if s.tick then some { s with tick := false, flushLoop := some LoopPC.syncLock } else none
  | _ => none

/-- The goroutine `flushLoop` runs `_ = s.Sync()` (line 138) and returns to its
`select`; `none` when it does not stand there. -/
def BufferedWriterHook.loopSync (W : ioWriter) (s : BufferedWriterHook) :
    Option BufferedWriterHook :=
  match s.flushLoop with
  | some LoopPC.syncLock =>
    match s.Sync W with
    | some (s1, _) => some { s1 with flushLoop := some LoopPC.select }
    | none => none
  | _ => none

/-- A call on the hook's sequential interface. -/
inductive Call where
  | Fire (entry : Entry)
  | Sync
  | Stop
  deriving DecidableEq, Repr

/-- Perform one call. -/
def BufferedWriterHook.call (W : ioWriter) (s : BufferedWriterHook) :
    Call → Option (BufferedWriterHook × Option Error)
  | Call.Fire entry => s.Fire W entry
  | Call.Sync => s.Sync W
  | Call.Stop => s.Stop W

/-- Perform a sequence of calls in order, collecting the error each returns. -/
def BufferedWriterHook.run (W : ioWriter) :
    BufferedWriterHook → List Call → Option (BufferedWriterHook × List (Option Error))
  | s, [] => some (s, [])
  | s, c :: cs =>
    match s.call W c with
    | none => none
    | some (s1, e) =>
      match BufferedWriterHook.run W s1 cs with
      | none => none
      | some (s2, es) => some (s2, e :: es)

/-- The records fired by a sequence of calls, in call order: the bytes of
every entry whose serialization succeeded. -/
def records : List Call → List Bytes
  | [] => []
  | Call.Fire entry :: cs => if entry.err = none then entry.bs :: records cs else records cs
  | Call.Sync :: cs => records cs
  | Call.Stop :: cs => records cs

/-- The entry whose serialization yields the record `bs`. -/
def Entry.ofBytes (bs : LogrusHook.Bytes) : Entry := { bs := bs, err := none }

/-- The writer that accepts every write in full and without error. -/
def idealWriter : ioWriter where
  Write := fun _ p => (p.length, none)
  n_le := fun _ _ => Nat.le_refl _
  short := fun _ _ h => absurd h (Nat.lt_irrefl _)

/-- A writer that accepts nothing and fails every write with error 5 (a closed
file, say). -/
def failingWriter : ioWriter where
  Write := fun _ _ => (0, some (Error.other 5))
  n_le := fun _ _ => Nat.zero_le _
  short := fun _ _ _ => by simp

/-- The state invariant of a hook that is driven by method calls only, on an
error-free downstream writer: once initialized, the buffer, ticker and channels
exist, the buffer carries no stored error, both channels are closed exactly
when `stopped` is set, and until then `flushLoop` is parked at its `select`
with no tick waiting; before that the buffer does not exist and `stopped` is
unset. -/
def BufferedWriterHook.Healthy (s : BufferedWriterHook) : Prop :=
  (s.initialized = true →
    (∃ b, s.writer = some b ∧ b.err = none) ∧ (∃ t, s.ticker = some t) ∧
    (∃ d, s.done = some d ∧ d.closed = s.stopped) ∧
    (∃ c, s.stop = some c ∧ c.closed = s.stopped) ∧
    (s.stopped = false → s.flushLoop = some LoopPC.select ∧ s.tick = false)) ∧
  (s.initialized = false → s.writer = none ∧ s.stopped = false)


/-- The hook state after `Fire [1, 2]` on a literal of size 8, a tick, and
`flushLoop` taking that tick: the record is buffered, nothing was written
downstream, and `flushLoop` stands before `s.Sync()`. -/
def midTick : BufferedWriterHook :=
  { Writer := [], LogLevels := [], Size := 8, FlushInterval := 0,
    Clock := some Clock.systemClock, initialized := true, stopped := false,
    writer := some { err := none, buf := [1, 2], size := 8 },
    ticker := some { d := 10000000000, stopped := false },
    stop := some { closed := false }, done := some { closed := false },
    flushLoop := some LoopPC.syncLock, tick := false }

/-- The hook state after `Fire [1]` and `Stop` on a literal of size 8 over the
failing writer: the final flush failed, the buffer keeps `[1]` and the error. -/
def stoppedOnError : BufferedWriterHook :=
  { Writer := [⟨[1], 0, some (Error.other 5)⟩], LogLevels := [], Size := 8, FlushInterval := 0,
    Clock := some Clock.systemClock, initialized := true, stopped := true,
    writer := some { err := some (Error.other 5), buf := [1], size := 8 },
    ticker := some { d := 10000000000, stopped := true },
    stop := some { closed := true }, done := some { closed := true },
    flushLoop := some LoopPC.exited, tick := false }

/-- A stopped hook of size 8 on which `Stop` has flushed everything. -/
def stoppedClean : BufferedWriterHook :=
  { Writer := [⟨[1], 1, none⟩], LogLevels := [], Size := 8, FlushInterval := 0,
    Clock := some Clock.systemClock, initialized := true, stopped := true,
    writer := some { err := none, buf := [], size := 8 },
    ticker := some { d := 10000000000, stopped := true },
    stop := some { closed := true }, done := some { closed := true },
    flushLoop := some LoopPC.exited, tick := false }

/-! ## Part 2: the `Levels` methods -/

/-- The method `BufferedWriterHook.Levels` (lines 100-112): it stores the list
it returns in `s.LogLevels`. -/
def BufferedWriterHook.Levels (s : BufferedWriterHook) : BufferedWriterHook × List Level :=
  let logLevels :=
    if s.LogLevels.length = 0 then [InfoLevel, ErrorLevel, WarnLevel, FatalLevel]
    else s.LogLevels
  ({ s with LogLevels := logLevels }, logLevels)

/-- The struct `Logrus2MysqlHook`. `Engine` holds the rows inserted so far and
`queue` the entries waiting in the channel. -/
structure Logrus2MysqlHook where
  Engine : List Entry
  LogLevels : List Level
  initialized : Bool
  stopped : Bool
  stop : Option Chan
  done : Option Chan
  queue : Option (List Entry)
  deriving DecidableEq, Repr

/-- The method `Logrus2MysqlHook.Levels` (lines 43-54). -/
def Logrus2MysqlHook.Levels (s : Logrus2MysqlHook) : Logrus2MysqlHook × List Level :=
  let logLevels :=
    if s.LogLevels.length = 0 then [InfoLevel, ErrorLevel, FatalLevel]
    else s.LogLevels
  ({ s with LogLevels := logLevels }, logLevels)

/-- The composite literal `&Logrus2MysqlHook{...}` with `LogLevels` given. -/
def Logrus2MysqlHook.literal (LogLevels : List Level) : Logrus2MysqlHook :=
  { Engine := [], LogLevels := LogLevels, initialized := false, stopped := false,
    stop := none, done := none, queue := none }

/-! ## Part 3: `Stop` against the background goroutine

The goroutine that calls `Stop` and the background goroutine of a running hook,
as a transition system. A state holds the program counter of each goroutine,
the owner of `s.mu`, and the state of the channels; one step executes one
blocking operation, or the straight-line code up to the next one. The buffer
contents play no part and are left out. -/

/-- The two goroutines. -/
inductive Goroutine where
  | Stop
  | loop
  deriving DecidableEq, Repr

/-- Program counter of the goroutine running `BufferedWriterHook.Stop`. -/
inductive StopPC where
  /-- At `s.mu.Lock()`, line 152. -/
  | lock
  /-- Holding the mutex, at line 155. -/
  | critical
  /-- Holding the mutex, at the receive `<-s.done`, line 167. -/
  | waitDone
  /-- At the deferred `s.mu.Unlock()` of line 153. -/
  | unlock
  /-- In `s.Sync()` (line 172), at its `s.mu.Lock()`, line 116. -/
  | syncLock
  /-- In `s.Sync()`, holding the mutex, lines 119-124. -/
  | syncBody
  /-- `Stop` has returned. -/
  | returned
  deriving DecidableEq, Repr

/-- One scheduling decision. -/
inductive Action where
  /-- The ticker delivers a tick (buffered hook), or a `Fire` call enqueues an
  entry (MySQL hook). -/
  | event
  /-- The goroutine in `Stop` takes its next step. -/
  | stop
  /-- The background goroutine, at its `select`, takes the event case. -/
  | loopEvent
  /-- The background goroutine, at its `select`, takes the `<-s.stop` case. -/
  | loopStop
  /-- The background goroutine, elsewhere, takes its next step. -/
  | loop
  deriving DecidableEq, Repr

/-- State of a `BufferedWriterHook` with a goroutine in `Stop`. `tick` says
that a tick waits in `s.ticker.C`; `localStopped` is the local variable
`stopped` of `Stop`. -/
structure FlushSys where
  mu : Option Goroutine
  initialized : Bool
  stopped : Bool
  tickerStopped : Bool
  tick : Bool
  stopClosed : Bool
  doneClosed : Bool
  stopPC : StopPC
  localStopped : Bool
  loopPC : LoopPC
  deriving DecidableEq, Repr

/-- A running buffered hook: initialized, `flushLoop` parked at its `select`,
and a goroutine about to call `Stop` for the first time. -/
def FlushSys.running : FlushSys :=
  { mu := none, initialized := true, stopped := false, tickerStopped := false, tick := false,
    stopClosed := false, doneClosed := false, stopPC := StopPC.lock, localStopped := false,
    loopPC := LoopPC.select }

/-- One step of `BufferedWriterHook.Stop` (lines 147-176) or of `flushLoop`
(lines 129-143); `none` when the chosen goroutine is blocked or has ended. -/
def FlushSys.step (σ : FlushSys) : Action → Option FlushSys
  | Action.event =>
    if !σ.tickerStopped && !σ.tick then some { σ with tick := true } else none
  | Action.stop =>
    match σ.stopPC with
    | StopPC.lock =>
      if σ.mu = none then some { σ with mu := some Goroutine.Stop, stopPC := StopPC.critical }
      else none
    | StopPC.critical =>
      if !σ.initialized then some { σ with stopPC := StopPC.unlock }
      else if σ.stopped then some { σ with localStopped := true, stopPC := StopPC.unlock }
      else some { σ with stopped := true, tickerStopped := true, stopClosed := true,
                         stopPC := StopPC.waitDone }
    | StopPC.waitDone => if σ.doneClosed then some { σ with stopPC := StopPC.unlock } else none
    | StopPC.unlock =>
      some { σ with mu := none,
                    stopPC := if σ.localStopped then StopPC.returned else StopPC.syncLock }
    | StopPC.syncLock =>
      if σ.mu = none then some { σ with mu := some Goroutine.Stop, stopPC := StopPC.syncBody }
      else none
    | StopPC.syncBody => some { σ with mu := none, stopPC := StopPC.returned }
    | StopPC.returned => none
  | Action.loopEvent =>
    match σ.loopPC with
    | LoopPC.select =>
      if σ.tick then some { σ with tick := false, loopPC := LoopPC.syncLock } else none
    | _ => none
  | Action.loopStop =>
    match σ.loopPC with
    | LoopPC.select => if σ.stopClosed then some { σ with loopPC := LoopPC.closing } else none
    | _ => none
  | Action.loop =>
    match σ.loopPC with
    | LoopPC.syncLock =>
      if σ.mu = none then some { σ with mu := some Goroutine.loop, loopPC := LoopPC.syncBody }
      else none
    | LoopPC.syncBody => some { σ with mu := none, loopPC := LoopPC.select }
    | LoopPC.closing => some { σ with doneClosed := true, loopPC := LoopPC.exited }
    | _ => none

/-- Run a schedule; `none` if it asks a blocked goroutine to move. -/
def FlushSys.exec : FlushSys → List Action → Option FlushSys
  | σ, [] => some σ
  | σ, a :: as =>
    match σ.step a with
    | none => none
    | some σ1 => FlushSys.exec σ1 as

/-- The synchronisation state of a hook between two method calls, with a
goroutine about to call `Stop`: nobody holds `s.mu`. -/
def BufferedWriterHook.toFlushSys (s : BufferedWriterHook) : FlushSys :=
  { mu := none, initialized := s.initialized, stopped := s.stopped,
    tickerStopped := match s.ticker with
      | some t => t.stopped
      | none => true,
    tick := s.tick,
    stopClosed := match s.stop with
      | some c => c.closed
      | none => false,
    doneClosed := match s.done with
      | some d => d.closed
      | none => false,
    stopPC := StopPC.lock, localStopped := false,
    loopPC := match s.flushLoop with
      | some pc => pc
      | none => LoopPC.exited }

/-- State of a `Logrus2MysqlHook` with a goroutine in `Stop`; `queue` is the
number of entries waiting in `s.queue`. Its `Stop` only uses the program
counters `lock`, `critical`, `waitDone`, `unlock` and `returned`. -/
structure MysqlSys where
  mu : Option Goroutine
  initialized : Bool
  stopped : Bool
  queue : Nat
  stopClosed : Bool
  doneClosed : Bool
  stopPC : StopPC
  loopPC : LoopPC
  deriving DecidableEq, Repr

/-- A running MySQL hook right after its first `Fire`: initialized, one entry
queued, `flush` at its `select`, and a goroutine about to call `Stop`. -/
def MysqlSys.running : MysqlSys :=
  { mu := none, initialized := true, stopped := false, queue := 1, stopClosed := false,
    doneClosed := false, stopPC := StopPC.lock, loopPC := LoopPC.select }

/-- One step of `Logrus2MysqlHook.Stop` (lines 90-112) or of `flush` (lines
77-88); the event is a `Fire` call (lines 31-40) that finds room in the queue. -/
def MysqlSys.step (σ : MysqlSys) : Action → Option MysqlSys
  | Action.event =>
    if σ.mu = none ∧ σ.initialized = true ∧ σ.queue < 30 then
      some { σ with queue := σ.queue + 1 }
    else none
  | Action.stop =>
    match σ.stopPC with
    | StopPC.lock =>
      if σ.mu = none then some { σ with mu := some Goroutine.Stop, stopPC := StopPC.critical }
      else none
    | StopPC.critical =>
      if !σ.initialized then some { σ with stopPC := StopPC.unlock }
      else if σ.stopped then some { σ with stopPC := StopPC.unlock }
      else some { σ with stopped := true, stopClosed := true, stopPC := StopPC.waitDone }
    | StopPC.waitDone => if σ.doneClosed then some { σ with stopPC := StopPC.unlock } else none
    | StopPC.unlock => some { σ with mu := none, stopPC := StopPC.returned }
    | _ => none
  | Action.loopEvent =>
    match σ.loopPC with
    | LoopPC.select =>
      if 0 < σ.queue then some { σ with queue := σ.queue - 1, loopPC := LoopPC.syncLock }
      else none
    | _ => none
  | Action.loopStop =>
    match σ.loopPC with
    | LoopPC.select => if σ.stopClosed then some { σ with loopPC := LoopPC.closing } else none
    | _ => none
  | Action.loop =>
    match σ.loopPC with
    | LoopPC.syncLock =>
      if σ.mu = none then some { σ with mu := some Goroutine.loop, loopPC := LoopPC.syncBody }
      else none
    | LoopPC.syncBody => some { σ with mu := none, loopPC := LoopPC.select }
    | LoopPC.closing => some { σ with doneClosed := true, loopPC := LoopPC.exited }
    | _ => none

/-- Run a schedule; `none` if it asks a blocked goroutine to move. -/
def MysqlSys.exec : MysqlSys → List Action → Option MysqlSys
  | σ, [] => some σ
  | σ, a :: as =>
    match σ.step a with
    | none => none
    | some σ1 => MysqlSys.exec σ1 as

end LogrusHook

namespace LogrusHook

/-! ## Lemmas on `bufio.Writer` -/

theorem idealWriter_acceptsAll : idealWriter.AcceptsAll := fun _ _ => rfl

theorem bufio.Flush_acceptsAll {W : ioWriter} (hW : W.AcceptsAll) (b : bufio.Writer)
    (log : List WriteCall) (h : b.err = none) :
    bufio.Writer.Flush W b log =
      ({ b with buf := [] },
       if b.buf = [] then log else log ++ [⟨b.buf, b.buf.length, none⟩], none) := by
  obtain ⟨err, buf, size⟩ := b
  simp only at h
  subst h
  by_cases hb : buf = []
  · subst hb
    simp [bufio.Writer.Flush]
  · have hl : buf.length ≠ 0 := by simpa using hb
    simp [bufio.Writer.Flush, hb, ioWriter.call, hW _ _]

theorem bufio.writeLoop_done (W : ioWriter) (fuel : Nat) (b : bufio.Writer)
    (log : List WriteCall) (p : Bytes) (nn : Nat)
    (h : ¬ (p.length > b.Available ∧ b.err = none)) :
    bufio.Writer.writeLoop W fuel b log p nn = some (b, log, p, nn) := by
  cases fuel <;> simp [bufio.Writer.writeLoop, h]

/-- After a direct write the loop of `Write` ends: either the error is set or
all of `p` was consumed. -/
theorem bufio.writeLoop_direct (W : ioWriter) (fuel : Nat) (b : bufio.Writer)
    (log : List WriteCall) (p : Bytes) (nn : Nat)
    (hc : p.length > b.Available ∧ b.err = none) (hb : b.Buffered = 0) :
    bufio.Writer.writeLoop W (fuel + 1) b log p nn =
      some ({ b with err := (W.Write log p).2 }, log ++ [⟨p, (W.Write log p).1, (W.Write log p).2⟩],
            p.drop (W.Write log p).1, nn + (W.Write log p).1) := by
  rw [bufio.Writer.writeLoop]
  simp only [hc, hb, if_true, and_self, ioWriter.call]
  apply bufio.writeLoop_done
  intro ⟨h1, h2⟩
  simp only at h2
  have := W.short log p
  have hle := W.n_le log p
  by_cases hlt : (W.Write log p).1 < p.length
  · exact this hlt h2
  · have : p.length ≤ (W.Write log p).1 := Nat.le_of_not_lt hlt
    simp [List.drop_of_length_le this] at h1

/-- A flush of a writer without stored error leaves an error or an empty
buffer. -/
theorem bufio.Flush_err_or_empty (W : ioWriter) (b : bufio.Writer) (log : List WriteCall)
    (he : b.err = none) :
    (bufio.Writer.Flush W b log).1.err ≠ none ∨ (bufio.Writer.Flush W b log).1.buf = [] := by
  unfold bufio.Writer.Flush
  rw [he]
  by_cases hb : b.buf.length = 0
  · right
    simp only [hb, if_true]
    exact List.length_eq_zero.mp hb
  · simp only [hb, if_false]
    split <;> simp

/-- The loop of `Write` never exhausts a budget of two iterations or more. -/
theorem bufio.writeLoop_returns (W : ioWriter) (fuel : Nat) (b : bufio.Writer)
    (log : List WriteCall) (p : Bytes) (nn : Nat) :
    ∃ r, bufio.Writer.writeLoop W (fuel + 2) b log p nn = some r := by
  by_cases hc : p.length > b.Available ∧ b.err = none
  · by_cases hb : b.Buffered = 0
    · exact ⟨_, bufio.writeLoop_direct W (fuel + 1) b log p nn hc hb⟩
    · rw [bufio.Writer.writeLoop, if_pos hc, if_neg hb]
      dsimp only
      have hf := bufio.Flush_err_or_empty W
        { b with buf := b.buf ++ List.take (min b.Available p.length) p } log hc.2
      generalize bufio.Writer.Flush W
        { b with buf := b.buf ++ List.take (min b.Available p.length) p } log = r at hf ⊢
      by_cases hc2 : (List.drop (min b.Available p.length) p).length > r.1.Available ∧ r.1.err = none
      · have hb2 : r.1.Buffered = 0 := by
          rcases hf with hf | hf
          · exact absurd hc2.2 hf
          · simp [bufio.Writer.Buffered, hf]
        exact ⟨_, bufio.writeLoop_direct W fuel r.1 r.2.1 _ _ hc2 hb2⟩
      · exact ⟨_, bufio.writeLoop_done W _ _ _ _ _ hc2⟩
  · exact ⟨_, bufio.writeLoop_done W _ _ _ _ _ hc⟩

/-- The method `Write` always returns. -/
theorem bufio.Write_returns (W : ioWriter) (b : bufio.Writer) (log : List WriteCall)
    (p : Bytes) : ∃ r, bufio.Writer.Write W b log p = some r := by
  obtain ⟨⟨b1, log1, p1, nn⟩, hr⟩ := bufio.writeLoop_returns W p.length b log p 0
  rw [bufio.Writer.Write, hr]
  simp only
  cases b1.err <;> simp

/-- A write that fits in the free space is copied into the buffer. -/
theorem bufio.Write_fits (W : ioWriter) (b : bufio.Writer) (log : List WriteCall) (p : Bytes)
    (he : b.err = none) (hp : p.length ≤ b.Available) :
    bufio.Writer.Write W b log p = some ({ b with buf := b.buf ++ p }, log, p.length, none) := by
  have hc : ¬ (p.length > b.Available ∧ b.err = none) := by omega
  rw [bufio.Writer.Write, bufio.writeLoop_done W _ b log p 0 hc]
  simp [he, Nat.min_eq_right hp]

/-- A write larger than the free space of an empty buffer goes to an error-free
downstream writer directly and whole. -/
theorem bufio.Write_direct {W : ioWriter} (hW : W.AcceptsAll) (b : bufio.Writer)
    (log : List WriteCall) (p : Bytes) (he : b.err = none) (hb : b.buf = [])
    (hp : p.length > b.Available) :
    bufio.Writer.Write W b log p = some (b, log ++ [⟨p, p.length, none⟩], p.length, none) := by
  have hB : b.Buffered = 0 := by simp [bufio.Writer.Buffered, hb]
  rw [bufio.Writer.Write, bufio.writeLoop_direct W _ b log p 0 ⟨hp, he⟩ hB]
  obtain ⟨err, buf, size⟩ := b
  simp only at he hb
  subst he hb
  simp [hW _ _]

/-! ## Lemmas on the hook -/

theorem BufferedWriterHook.ready_healthy (s : BufferedWriterHook) (hs : s.Healthy) :
    s.ready.Healthy ∧ s.ready.initialized = true ∧ s.ready.Writer = s.Writer ∧
    s.ready.buffered = s.buffered ∧ s.ready.stopped = s.stopped := by
  unfold BufferedWriterHook.ready
  cases hi : s.initialized
  · obtain ⟨hw, hst⟩ := hs.2 hi
    simp [ BufferedWriterHook.initialize, BufferedWriterHook.Healthy, BufferedWriterHook.buffered,
      bufio.NewWriterSize, hw, hst]
  · simpa [hi] using hs

/-- An entry whose serialization fails: `Fire` returns that error at once. -/
theorem BufferedWriterHook.Fire_err (W : ioWriter) (s : BufferedWriterHook) (entry : Entry)
    (e : Error) (h : entry.err = some e) : s.Fire W entry = some (s, some e) := by
  simp [BufferedWriterHook.Fire, Entry.Bytes, h]

/-- The method `Fire` returns whenever the buffer exists after the lazy
initialization, whatever the downstream writer does. -/
theorem BufferedWriterHook.Fire_returns (W : ioWriter) (s : BufferedWriterHook)
    (entry : Entry) (b : bufio.Writer) (hw : s.ready.writer = some b) :
    ∃ r, s.Fire W entry = some r := by
  obtain ⟨bs, err⟩ := entry
  cases err with
  | some e => exact ⟨_, BufferedWriterHook.Fire_err W s _ e rfl⟩
  | none =>
    simp only [BufferedWriterHook.Fire, Entry.Bytes, hw]
    split
    · exact ⟨_, rfl⟩
    · rename_i r _
      obtain ⟨x, hx⟩ := bufio.Write_returns W
        (if bs.length > b.Available ∧ b.Buffered > 0 then bufio.Writer.Flush W b s.ready.Writer
         else (b, s.ready.Writer, none)).1
        (if bs.length > b.Available ∧ b.Buffered > 0 then bufio.Writer.Flush W b s.ready.Writer
         else (b, s.ready.Writer, none)).2.1 bs
      rw [hx]
      exact ⟨_, rfl⟩

/-- The effect of `Fire` on an error-free downstream writer, in closed form:
the buffer is flushed first when the record does not fit and the buffer is not
empty, and a record larger than the whole buffer is written directly. -/
theorem BufferedWriterHook.Fire_acceptsAll {W : ioWriter} (hW : W.AcceptsAll)
    (s : BufferedWriterHook) (bs : Bytes) (b : bufio.Writer)
    (hw : s.ready.writer = some b) (he : b.err = none) :
    s.Fire W ⟨bs, none⟩ = some
      ({ s.ready with
          writer := some { b with
            buf := if bs.length ≤ b.Available then b.buf ++ bs
                   else if bs.length ≤ b.size then bs else [] }
          Writer := s.ready.Writer
            ++ (if bs.length > b.Available ∧ b.buf ≠ [] then [⟨b.buf, b.buf.length, none⟩] else [])
            ++ (if bs.length > b.size then [⟨bs, bs.length, none⟩] else []) }, none) := by
  have hav : b.Available ≤ b.size := Nat.sub_le _ _
  simp only [BufferedWriterHook.Fire, Entry.Bytes, hw]
  by_cases h1 : bs.length ≤ b.Available
  · have hc : ¬ (bs.length > b.Available ∧ b.Buffered > 0) := by omega
    have h3 : ¬ bs.length > b.size := by omega
    have h4 : ¬ (bs.length > b.Available ∧ b.buf ≠ []) := by omega
    simp only [hc, if_false, bufio.Write_fits W b _ bs he h1, h1, if_true, h3, h4,
      List.append_nil]
  · by_cases h2 : b.buf = []
    · have hc : ¬ (bs.length > b.Available ∧ b.Buffered > 0) := by
        simp [bufio.Writer.Buffered, h2]
      have h3 : bs.length > b.size := by
        simp only [bufio.Writer.Available, h2, List.length_nil, Nat.sub_zero] at h1
        omega
      have h3' : ¬ bs.length ≤ b.size := by omega
      have h4 : ¬ (bs.length > b.Available ∧ b.buf ≠ []) := by simp [h2]
      simp only [hc, if_false, bufio.Write_direct hW b _ bs he h2 (by omega), h1, h3, h3', h4,
        if_true, List.append_nil]
      obtain ⟨err, buf, size⟩ := b
      simp only at h2
      subst h2
      rfl
    · have hB : b.Buffered > 0 := by
        simp only [bufio.Writer.Buffered]
        exact List.length_pos.mpr h2
      have hc : bs.length > b.Available ∧ b.Buffered > 0 := ⟨by omega, hB⟩
      have h4 : bs.length > b.Available ∧ b.buf ≠ [] := ⟨by omega, h2⟩
      simp only [hc, and_self, if_true, bufio.Flush_acceptsAll hW b _ he, h2, if_false, h1, h4]
      by_cases h3 : bs.length ≤ b.size
      · have h3' : ¬ bs.length > b.size := by omega
        have hf : bs.length ≤ ({ b with buf := [] } : bufio.Writer).Available := by
          simpa [bufio.Writer.Available] using h3
        rw [bufio.Write_fits W { b with buf := [] } _ bs he hf]
        simp [h2, h3, h3']
      · have h3' : bs.length > b.size := by omega
        have hf : bs.length > ({ b with buf := [] } : bufio.Writer).Available := by
          simpa [bufio.Writer.Available] using h3'
        rw [bufio.Write_direct hW { b with buf := [] } _ bs he rfl hf]
        simp [h2, h3, h3']

/-- The effect of `Sync` on an initialized hook over an error-free downstream
writer. -/
theorem BufferedWriterHook.Sync_acceptsAll {W : ioWriter} (hW : W.AcceptsAll)
    (s : BufferedWriterHook) (b : bufio.Writer) (hi : s.initialized = true)
    (hw : s.writer = some b) (he : b.err = none) :
    s.Sync W = some
      ({ s with
          writer := some { b with buf := [] }
          Writer := if b.buf = [] then s.Writer
                    else s.Writer ++ [⟨b.buf, b.buf.length, none⟩] }, none) := by
  simp only [BufferedWriterHook.Sync, hi, if_true, hw, bufio.Flush_acceptsAll hW b _ he]

/-- Before initialization `Sync` returns nil and changes nothing. -/
theorem BufferedWriterHook.Sync_uninit (W : ioWriter) (s : BufferedWriterHook)
    (hi : s.initialized = false) : s.Sync W = some (s, none) := by
  simp [BufferedWriterHook.Sync, hi]

/-- Before initialization `Stop` returns nil and changes nothing. -/
theorem BufferedWriterHook.Stop_uninit (W : ioWriter) (s : BufferedWriterHook)
    (hi : s.initialized = false) : s.Stop W = some (s, none) := by
  simp [BufferedWriterHook.Stop, BufferedWriterHook.Sync, hi]

/-- Once `stopped` is set, `Stop` returns nil and changes nothing. -/
theorem BufferedWriterHook.Stop_stopped (W : ioWriter) (s : BufferedWriterHook)
    (hi : s.initialized = true) (hst : s.stopped = true) : s.Stop W = some (s, none) := by
  simp [BufferedWriterHook.Stop, hi, hst]

/-- The first `Stop` on an initialized healthy hook over an error-free
downstream writer: `flushLoop` is parked at its `select`, so it exits; the flags
are set, the channels closed and the buffer flushed. -/
theorem BufferedWriterHook.Stop_first {W : ioWriter} (hW : W.AcceptsAll)
    (s : BufferedWriterHook) (hs : s.Healthy) (hi : s.initialized = true)
    (hst : s.stopped = false) :
    ∃ t b, s.ticker = some t ∧ s.writer = some b ∧ b.err = none ∧
      s.Stop W = some
        ({ s with
            stopped := true
            ticker := some t.Stop
            stop := some { closed := true }
            done := some { closed := true }
            flushLoop := some LoopPC.exited
            writer := some { b with buf := [] }
            Writer := if b.buf = [] then s.Writer
                      else s.Writer ++ [⟨b.buf, b.buf.length, none⟩] }, none) := by
  obtain ⟨⟨b, hw, he⟩, ⟨t, ht⟩, ⟨d, hd, hdc⟩, ⟨c, hc, hcl⟩, hloop⟩ := hs.1 hi
  obtain ⟨hl, htk⟩ := hloop hst
  refine ⟨t, b, ht, hw, he, ?_⟩
  have hcl1 : c.closed = false := by rw [hcl, hst]
  have hdc1 : d.closed = false := by rw [hdc, hst]
  simp only [BufferedWriterHook.Stop, BufferedWriterHook.awaitDone, hi, hst, ht, hc, hd, hcl1,
    hdc1, hl, htk, Bool.not_true, if_false, Bool.false_eq_true]
  simp [BufferedWriterHook.Sync, hw, bufio.Flush_acceptsAll hW b _ he]

theorem delivered_snoc (log : List WriteCall) (p : Bytes) :
    delivered (log ++ [⟨p, p.length, none⟩]) = delivered log ++ p := by
  simp [delivered]

theorem payloads_snoc (log : List WriteCall) (c : WriteCall) :
    payloads (log ++ [c]) = payloads log ++ [c.p] := by
  simp [payloads]

/-- One call on a healthy hook over an error-free downstream writer returns,
keeps the hook healthy, returns nil unless the entry failed to serialize, and
extends "delivered followed by buffered" by exactly the record fired. -/
theorem BufferedWriterHook.call_acceptsAll {W : ioWriter} (hW : W.AcceptsAll)
    (s : BufferedWriterHook) (hs : s.Healthy) (c : Call) :
    ∃ s1 e, s.call W c = some (s1, e) ∧ s1.Healthy ∧
      delivered s1.Writer ++ s1.buffered
        = delivered s.Writer ++ s.buffered ++ (records [c]).flatten ∧
      (s.initialized = true → s1.initialized = true) ∧
      (s.stopped = true → s1.stopped = true) := by
  cases c with
  | Fire entry =>
    obtain ⟨bs, err⟩ := entry
    cases err with
    | some e =>
      refine ⟨s, some e, BufferedWriterHook.Fire_err W s ⟨bs, some e⟩ e rfl, hs, ?_, id, id⟩
      simp [records]
    | none =>
      obtain ⟨hr, hri, hrw, hrb, hrs⟩ := s.ready_healthy hs
      obtain ⟨⟨b, hw, he⟩, ht, hd, hc⟩ := hr.1 hri
      refine ⟨_, none, BufferedWriterHook.Fire_acceptsAll hW s bs b hw he, ?_, ?_, ?_, ?_⟩
      · refine ⟨fun _ => ⟨⟨_, rfl, he⟩, ht, hd, hc⟩, fun h => ?_⟩
        simp only at h
        rw [hri] at h
        cases h
      · have hb : s.buffered = b.buf := by
          rw [← hrb, BufferedWriterHook.buffered, hw]
        rw [hb]
        simp only [BufferedWriterHook.buffered, hrw, records, if_true, List.flatten_cons,
          List.flatten_nil, List.append_nil]
        have hav : b.Available ≤ b.size := Nat.sub_le _ _
        by_cases h1 : bs.length ≤ b.Available
        · have h3 : ¬ bs.length > b.size := by omega
          have h4 : ¬ (bs.length > b.Available ∧ b.buf ≠ []) := by omega
          simp [h1, h3, h4]
        · have h1' : bs.length > b.Available := by omega
          by_cases h2 : b.buf = []
          · have h3 : bs.length > b.size := by
              simp only [bufio.Writer.Available, h2, List.length_nil, Nat.sub_zero] at h1
              omega
            have h3' : ¬ bs.length ≤ b.size := by omega
            simp [h1, h2, h3, h3', delivered_snoc]
          · by_cases h3 : bs.length ≤ b.size
            · have h3' : ¬ bs.length > b.size := by omega
              simp [h1, h1', h2, h3, h3', delivered_snoc]
            · have h3' : bs.length > b.size := by omega
              simp [h1, h1', h2, h3, h3', delivered_snoc, ← List.append_assoc]
      · intro _
        exact hri
      · intro h
        simpa [hrs] using h
  | Sync =>
    cases hi : s.initialized
    · refine ⟨s, none, BufferedWriterHook.Sync_uninit W s hi, hs, ?_, ?_, id⟩
      · simp [records]
      · intro h
        cases h
    · obtain ⟨⟨b, hw, he⟩, ht, hd, hc⟩ := hs.1 hi
      refine ⟨_, none, BufferedWriterHook.Sync_acceptsAll hW s b hi hw he, ?_, ?_, ?_, id⟩
      · refine ⟨fun _ => ⟨⟨_, rfl, he⟩, ht, hd, hc⟩, fun h => ?_⟩
        simp only at h
        rw [hi] at h
        cases h
      · simp only [BufferedWriterHook.buffered, hw, records, List.flatten_nil, List.append_nil]
        by_cases h2 : b.buf = []
        · simp [h2]
        · simp [h2, delivered_snoc]
      · intro _
        exact hi
  | Stop =>
    cases hi : s.initialized
    · refine ⟨s, none, BufferedWriterHook.Stop_uninit W s hi, hs, ?_, ?_, id⟩
      · simp [records]
      · intro h
        cases h
    · cases hst : s.stopped
      · obtain ⟨t, b, ht, hw, he, hstop⟩ := BufferedWriterHook.Stop_first hW s hs hi hst
        refine ⟨_, none, hstop, ?_, ?_, ?_, ?_⟩
        · refine ⟨fun _ => ⟨⟨_, rfl, he⟩, ⟨_, rfl⟩, ⟨_, rfl, rfl⟩, ⟨_, rfl, rfl⟩,
            fun h => Bool.noConfusion h⟩, fun h => ?_⟩
          simp only at h
          rw [hi] at h
          cases h
        · simp only [BufferedWriterHook.buffered, hw, records, List.flatten_nil, List.append_nil]
          by_cases h2 : b.buf = []
          · simp [h2]
          · simp [h2, delivered_snoc]
        · intro _
          exact hi
        · intro _
          rfl
      · refine ⟨s, none, BufferedWriterHook.Stop_stopped W s hi hst, hs, ?_, fun _ => hi,
          fun _ => hst⟩
        simp [records]

theorem records_cons (c : Call) (cs : List Call) :
    records (c :: cs) = records [c] ++ records cs := by
  cases c with
  | Fire entry =>
    by_cases h : entry.err = none <;> simp [records, h]
  | Sync => simp [records]
  | Stop => simp [records]

/-- A sequence of calls on a healthy hook over an error-free downstream writer
returns, and "delivered followed by buffered" grows by the records fired. -/
theorem BufferedWriterHook.run_acceptsAll {W : ioWriter} (hW : W.AcceptsAll)
    (cs : List Call) : ∀ (s : BufferedWriterHook), s.Healthy →
    ∃ s1 es, s.run W cs = some (s1, es) ∧ s1.Healthy ∧
      delivered s1.Writer ++ s1.buffered
        = delivered s.Writer ++ s.buffered ++ (records cs).flatten ∧
      (s.initialized = true → s1.initialized = true) ∧
      (s.stopped = true → s1.stopped = true) := by
  induction cs with
  | nil =>
    intro s hs
    exact ⟨s, [], rfl, hs, by simp [records], id, id⟩
  | cons c cs ih =>
    intro s hs
    obtain ⟨s1, e, h1, hs1, hd1, hi1, hst1⟩ := BufferedWriterHook.call_acceptsAll hW s hs c
    obtain ⟨s2, es, h2, hs2, hd2, hi2, hst2⟩ := ih s1 hs1
    refine ⟨s2, e :: es, ?_, hs2, ?_, fun h => hi2 (hi1 h), fun h => hst2 (hst1 h)⟩
    · simp [BufferedWriterHook.run, h1, h2]
    · rw [hd2, hd1, records_cons c cs]
      simp [List.append_assoc]

theorem BufferedWriterHook.literal_healthy (LogLevels : List Level) (Size : Int)
    (FlushInterval : Duration) (Clock : Option LogrusHook.Clock) :
    (BufferedWriterHook.literal LogLevels Size FlushInterval Clock).Healthy := by
  simp [BufferedWriterHook.literal, BufferedWriterHook.Healthy]

theorem BufferedWriterHook.ready_of_initialized (s : BufferedWriterHook)
    (hi : s.initialized = true) : s.ready = s := by
  simp [BufferedWriterHook.ready, hi]

/-- A record that fits in the free space is appended to the buffer, whatever
the downstream writer: no call is made on it. -/
theorem BufferedWriterHook.Fire_fits (W : ioWriter) (s : BufferedWriterHook) (bs : Bytes)
    (b : bufio.Writer) (hw : s.ready.writer = some b) (he : b.err = none)
    (hfit : bs.length ≤ b.Available) :
    s.Fire W ⟨bs, none⟩
      = some ({ s.ready with writer := some { b with buf := b.buf ++ bs } }, none) := by
  have hc : ¬ (bs.length > b.Available ∧ b.Buffered > 0) := by omega
  simp only [BufferedWriterHook.Fire, Entry.Bytes, hw, hc, if_false,
    bufio.Write_fits W b _ bs he hfit]

/-- Records that fit together in the free space of an initialized hook are all
appended to the buffer; every `Fire` returns nil. -/
theorem BufferedWriterHook.run_fits (W : ioWriter) (rs : List Bytes) :
    ∀ (s : BufferedWriterHook) (b : bufio.Writer), s.initialized = true →
      s.writer = some b → b.err = none → b.buf.length + rs.flatten.length ≤ b.size →
      s.run W (rs.map fun r => Call.Fire (Entry.ofBytes r))
        = some ({ s with writer := some { b with buf := b.buf ++ rs.flatten } },
                rs.map fun _ => none) := by
  induction rs with
  | nil =>
    intro s b _ hw _ _
    obtain ⟨err, buf, size⟩ := b
    cases s
    simp only at hw
    subst hw
    simp [BufferedWriterHook.run]
  | cons r rs ih =>
    intro s b hi hw he hcap
    simp only [List.flatten_cons, List.length_append] at hcap
    have hr : s.ready = s := s.ready_of_initialized hi
    have hfit : r.length ≤ b.Available := by
      simp only [bufio.Writer.Available]
      omega
    have h1 := BufferedWriterHook.Fire_fits W s r b (by rw [hr]; exact hw) he hfit
    rw [hr] at h1
    have h2 := ih { s with writer := some { b with buf := b.buf ++ r } }
      { b with buf := b.buf ++ r } hi rfl he (by simp only [List.length_append]; omega)
    simp only [List.map_cons, BufferedWriterHook.run, BufferedWriterHook.call, Entry.ofBytes]
    rw [h1]
    simp only [Entry.ofBytes] at h2
    simp only [h2, List.flatten_cons, List.append_assoc]

/-- The payloads handed downstream by a flush of a writer without stored
error: the buffered bytes in one call, or no call when the buffer is empty. -/
theorem bufio.Flush_payloads (W : ioWriter) (b : bufio.Writer) (log : List WriteCall)
    (he : b.err = none) :
    payloads (bufio.Writer.Flush W b log).2.1
      = payloads log ++ (if b.buf = [] then [] else [b.buf]) := by
  unfold bufio.Writer.Flush
  rw [he]
  by_cases hb : b.buf = []
  · simp [hb]
  · have hl : b.buf.length ≠ 0 := by simpa using hb
    simp only [hl, if_false, hb]
    split <;> simp [ioWriter.call, payloads]

/-- One `Fire` on an error-free downstream writer keeps every downstream
write a concatenation of whole records: if the write payloads so far are the
concatenations of the groups `gs` and the buffer holds the records `rest`, the
same holds afterwards for groups and a rest that extend them by the record. -/
theorem BufferedWriterHook.Fire_groups {W : ioWriter} (hW : W.AcceptsAll)
    (s : BufferedWriterHook) (hs : s.Healthy) (bs : Bytes)
    (gs : List (List Bytes)) (rest : List Bytes)
    (hg : ∀ g ∈ gs, g ≠ []) (hp : payloads s.Writer = gs.map List.flatten)
    (hb : s.buffered = rest.flatten) :
    ∃ s1, s.Fire W ⟨bs, none⟩ = some (s1, none) ∧ s1.Healthy ∧
      ∃ (gs1 : List (List Bytes)) (rest1 : List Bytes), (∀ g ∈ gs1, g ≠ []) ∧ gs1.flatten ++ rest1 = gs.flatten ++ rest ++ [bs] ∧
        payloads s1.Writer = gs1.map List.flatten ∧ s1.buffered = rest1.flatten := by
  obtain ⟨hr, hri, hrw, hrb, hrs⟩ := s.ready_healthy hs
  obtain ⟨⟨b, hw, he⟩, ht, hd, hc⟩ := hr.1 hri
  have hfire := BufferedWriterHook.Fire_acceptsAll hW s bs b hw he
  obtain ⟨s1, e1, hc1, hs1, _, _, _⟩ :=
    BufferedWriterHook.call_acceptsAll hW s hs (Call.Fire ⟨bs, none⟩)
  have heq : BufferedWriterHook.call W s (Call.Fire ⟨bs, none⟩) = s.Fire W ⟨bs, none⟩ := rfl
  rw [heq, hfire] at hc1
  have hs1eq := (Prod.mk.inj (Option.some.inj hc1)).1
  refine ⟨s1, by rw [hfire, hs1eq], hs1, ?_⟩
  have hbuf : b.buf = rest.flatten := by
    rw [← hb, ← hrb, BufferedWriterHook.buffered, hw]
  have hav : b.Available ≤ b.size := Nat.sub_le _ _
  have hWr : s1.Writer = s.Writer
      ++ (if bs.length > b.Available ∧ b.buf ≠ [] then [⟨b.buf, b.buf.length, none⟩] else [])
      ++ (if bs.length > b.size then [⟨bs, bs.length, none⟩] else []) := by
    rw [← hs1eq, ← hrw]
  have hBf : s1.buffered = if bs.length ≤ b.Available then b.buf ++ bs
      else if bs.length ≤ b.size then bs else [] := by
    rw [← hs1eq]
    rfl
  by_cases h1 : bs.length ≤ b.Available
  · have h3 : ¬ bs.length > b.size := by omega
    have h4 : ¬ (bs.length > b.Available ∧ b.buf ≠ []) := by omega
    refine ⟨gs, rest ++ [bs], hg, by simp, ?_, ?_⟩
    · rw [hWr, if_neg h4, if_neg h3, List.append_nil, List.append_nil]
      exact hp
    · rw [hBf, if_pos h1, hbuf]
      simp
  · have h1' : bs.length > b.Available := by omega
    by_cases h2 : b.buf = []
    · have h3 : bs.length > b.size := by
        simp only [bufio.Writer.Available, h2, List.length_nil, Nat.sub_zero] at h1
        omega
      have h3' : ¬ bs.length ≤ b.size := by omega
      have h4 : ¬ (bs.length > b.Available ∧ b.buf ≠ []) := fun h => h.2 h2
      refine ⟨gs ++ [rest ++ [bs]], [], ?_, by simp, ?_, ?_⟩
      · intro g hgm
        rcases List.mem_append.mp hgm with hgm | hgm
        · exact hg g hgm
        · simp only [List.mem_singleton] at hgm
          subst hgm
          simp
      · rw [hWr, if_neg h4, if_pos h3, List.append_nil, payloads_snoc, hp]
        rw [hbuf] at h2
        simp only [List.map_append, List.map_cons, List.map_nil, List.flatten_append, h2,
          List.flatten_cons, List.flatten_nil, List.append_nil, List.nil_append]
      · rw [hBf, if_neg h1, if_neg h3']
        rfl
    · have hrest : rest ≠ [] := by
        intro h
        apply h2
        rw [hbuf, h]
        rfl
      have h4 : bs.length > b.Available ∧ b.buf ≠ [] := ⟨h1', h2⟩
      by_cases h3 : bs.length ≤ b.size
      · have h3' : ¬ bs.length > b.size := by omega
        refine ⟨gs ++ [rest], [bs], ?_, by simp, ?_, ?_⟩
        · intro g hgm
          rcases List.mem_append.mp hgm with hgm | hgm
          · exact hg g hgm
          · simp only [List.mem_singleton] at hgm
            subst hgm
            exact hrest
        · rw [hWr, if_pos h4, if_neg h3', List.append_nil, payloads_snoc, hp, hbuf]
          simp only [List.map_append, List.map_cons, List.map_nil]
        · rw [hBf, if_neg h1, if_pos h3]
          simp
      · have h3' : bs.length > b.size := by omega
        refine ⟨gs ++ [rest, [bs]], [], ?_, by simp, ?_, ?_⟩
        · intro g hgm
          rcases List.mem_append.mp hgm with hgm | hgm
          · exact hg g hgm
          · simp only [List.mem_cons, List.mem_singleton, List.not_mem_nil, or_false] at hgm
            rcases hgm with hgm | hgm
            · subst hgm
              exact hrest
            · subst hgm
              simp
        · rw [hWr, if_pos h4, if_pos h3', payloads_snoc, payloads_snoc, hp, hbuf]
          simp only [List.map_append, List.map_cons, List.map_nil, List.append_assoc,
            List.singleton_append, List.flatten_cons, List.flatten_nil, List.append_nil]
        · rw [hBf, if_neg h1, if_neg h3]
          rfl

/-- A sequence of `Fire` calls on an error-free downstream writer: every call
returns nil and every downstream write is a concatenation of whole records. -/
theorem BufferedWriterHook.run_groups {W : ioWriter} (hW : W.AcceptsAll) (rs : List Bytes) :
    ∀ (s : BufferedWriterHook) (gs : List (List Bytes)) (rest : List Bytes), s.Healthy →
      (∀ g ∈ gs, g ≠ []) → payloads s.Writer = gs.map List.flatten →
      s.buffered = rest.flatten →
      ∃ s1, s.run W (rs.map fun r => Call.Fire (Entry.ofBytes r))
          = some (s1, rs.map fun _ => none) ∧ s1.Healthy ∧
        ∃ (gs1 : List (List Bytes)) (rest1 : List Bytes), (∀ g ∈ gs1, g ≠ []) ∧ gs1.flatten ++ rest1 = gs.flatten ++ rest ++ rs ∧
          payloads s1.Writer = gs1.map List.flatten ∧ s1.buffered = rest1.flatten := by
  induction rs with
  | nil =>
    intro s gs rest hs hg hp hb
    exact ⟨s, rfl, hs, gs, rest, hg, by simp, hp, hb⟩
  | cons r rs ih =>
    intro s gs rest hs hg hp hb
    obtain ⟨s1, h1, hs1, gs1, rest1, hg1, hcat1, hp1, hb1⟩ :=
      BufferedWriterHook.Fire_groups hW s hs r gs rest hg hp hb
    obtain ⟨s2, h2, hs2, gs2, rest2, hg2, hcat2, hp2, hb2⟩ := ih s1 gs1 rest1 hs1 hg1 hp1 hb1
    refine ⟨s2, ?_, hs2, gs2, rest2, hg2, ?_, hp2, hb2⟩
    · simp only [List.map_cons, BufferedWriterHook.run, BufferedWriterHook.call, Entry.ofBytes]
      rw [h1]
      simp only [Entry.ofBytes] at h2
      simp only [h2]
    · rw [hcat2, hcat1]
      simp

/-! ## The claims -/

/-- C1: for every sequence of `Fire` and `Sync` calls (and `Stop` calls, if
any) on one hook over a downstream writer that accepts every write in full and
without error, every call returns and after each call, that is after every
prefix `cs.take k` of the sequence, the bytes delivered downstream followed by
the bytes still held in the buffer are the concatenation of all records fired
so far, in call order. -/
theorem C1_delivered_then_buffered (W : ioWriter) (hW : W.AcceptsAll)
    (LogLevels : List Level) (Size : Int) (FlushInterval : Duration)
    (Clock : Option LogrusHook.Clock) (cs : List Call) (k : Nat) :
    ∃ s es, (BufferedWriterHook.literal LogLevels Size FlushInterval Clock).run W (cs.take k)
        = some (s, es) ∧
      delivered s.Writer ++ s.buffered = (records (cs.take k)).flatten := by
  obtain ⟨s, es, hrun, _, hd, _, _⟩ := BufferedWriterHook.run_acceptsAll hW (cs.take k) _
    (BufferedWriterHook.literal_healthy LogLevels Size FlushInterval Clock)
  refine ⟨s, es, hrun, ?_⟩
  rw [hd]
  simp [BufferedWriterHook.literal, BufferedWriterHook.buffered, delivered]

theorem C1_delivered_then_buffered_witness :
    idealWriter.AcceptsAll ∧
    ∃ s es, (BufferedWriterHook.literal [] 4 0 none).run idealWriter
        (List.take 3 [Call.Fire ⟨[1, 2, 3], none⟩, Call.Sync, Call.Fire ⟨[4, 5], none⟩,
          Call.Fire ⟨[6, 7, 8], none⟩]) = some (s, es) ∧
      delivered s.Writer ++ s.buffered
        = (records (List.take 3 [Call.Fire ⟨[1, 2, 3], none⟩, Call.Sync,
            Call.Fire ⟨[4, 5], none⟩, Call.Fire ⟨[6, 7, 8], none⟩])).flatten :=
  ⟨idealWriter_acceptsAll,
   C1_delivered_then_buffered idealWriter idealWriter_acceptsAll [] 4 0 none
     [Call.Fire ⟨[1, 2, 3], none⟩, Call.Sync, Call.Fire ⟨[4, 5], none⟩,
      Call.Fire ⟨[6, 7, 8], none⟩] 3⟩

/-- On an initialized hook that has not been stopped and was reached from a
composite literal by method calls only (so that `flushLoop` is parked at its
`select` and no tick waits), over an error-free downstream writer, the first
`Stop` returns nil and performs the final flush: afterwards no byte remains
buffered and the downstream writer holds every record fired before, in order.
After that, whatever calls follow, every further `Stop` returns nil and leaves
the whole state, the downstream history included, unchanged. -/
theorem BufferedWriterHook.Stop_while_parked (W : ioWriter) (hW : W.AcceptsAll)
    (LogLevels : List Level) (Size : Int) (FlushInterval : Duration)
    (Clock : Option LogrusHook.Clock) (cs : List Call)
    (s : BufferedWriterHook) (es : List (Option Error))
    (hrun : (BufferedWriterHook.literal LogLevels Size FlushInterval Clock).run W cs
      = some (s, es))
    (hi : s.initialized = true) (hst : s.stopped = false) :
    ∃ s1, s.Stop W = some (s1, none) ∧ s1.buffered = [] ∧
      delivered s1.Writer = (records cs).flatten ∧
      ∀ cs1 : List Call, ∃ s2 es1, s1.run W cs1 = some (s2, es1) ∧
        s2.Stop W = some (s2, none) := by
  obtain ⟨s0, es0, hrun0, hs, hd, _, _⟩ := BufferedWriterHook.run_acceptsAll hW cs _
    (BufferedWriterHook.literal_healthy LogLevels Size FlushInterval Clock)
  rw [hrun] at hrun0
  obtain ⟨rfl, rfl⟩ : s = s0 ∧ es = es0 := by simpa using hrun0
  obtain ⟨t, b, ht, hw, he, hstop⟩ := BufferedWriterHook.Stop_first hW s hs hi hst
  obtain ⟨s1, e1, hc1, hs1, _, hi1, _⟩ := BufferedWriterHook.call_acceptsAll hW s hs Call.Stop
  have heq : BufferedWriterHook.call W s Call.Stop = s.Stop W := rfl
  rw [heq, hstop] at hc1
  obtain ⟨hs1eq, -⟩ : _ = s1 ∧ none = e1 := by simpa using hc1
  refine ⟨s1, by rw [hstop, hs1eq], ?_, ?_, ?_⟩
  · rw [← hs1eq]
    simp [BufferedWriterHook.buffered]
  · have hd0 : delivered s.Writer ++ b.buf = (records cs).flatten := by
      have hb : s.buffered = b.buf := by simp [BufferedWriterHook.buffered, hw]
      rw [← hb, hd]
      simp [BufferedWriterHook.literal, BufferedWriterHook.buffered, delivered]
    rw [← hs1eq, ← hd0]
    by_cases h2 : b.buf = []
    · simp [h2]
    · simp [h2, delivered_snoc]
  · intro cs1
    obtain ⟨s2, es1, hr2, _, _, hi2, hst2⟩ := BufferedWriterHook.run_acceptsAll hW cs1 s1 hs1
    have hst1 : s1.stopped = true := by rw [← hs1eq]
    exact ⟨s2, es1, hr2, BufferedWriterHook.Stop_stopped W s2 (hi2 (hi1 hi)) (hst2 hst1)⟩

/-- C5: on a hook on which `Fire` has never been called, so that `initialized`
is unset, `Stop` and `Sync` each return nil and leave the whole state as it
is: the hook stays uninitialized, no ticker, buffer or goroutine is created,
`stopped` is not set and nothing is written downstream. -/
theorem C5_stop_sync_before_fire (W : ioWriter) (s : BufferedWriterHook)
    (h : s.initialized = false) :
    s.Stop W = some (s, none) ∧ s.Sync W = some (s, none) :=
  ⟨BufferedWriterHook.Stop_uninit W s h, BufferedWriterHook.Sync_uninit W s h⟩

theorem C5_stop_sync_before_fire_witness :
    (BufferedWriterHook.literal [] 0 0 none).initialized = false ∧
    (BufferedWriterHook.literal [] 0 0 none).Stop failingWriter
      = some (BufferedWriterHook.literal [] 0 0 none, none) ∧
    (BufferedWriterHook.literal [] 0 0 none).Sync failingWriter
      = some (BufferedWriterHook.literal [] 0 0 none, none) :=
  ⟨rfl, C5_stop_sync_before_fire failingWriter (BufferedWriterHook.literal [] 0 0 none) rfl⟩

/-- C6: for every hook state and every entry whose serialization fails with
error `e`, `Fire` returns exactly `e` and the hook state is unchanged: nothing is
appended to the buffer, nothing is written downstream, and a hook that was not
initialized stays so. -/
theorem C6_serialization_error (W : ioWriter) (s : BufferedWriterHook) (entry : Entry)
    (e : Error) (h : entry.Bytes.2 = some e) : s.Fire W entry = some (s, some e) :=
  BufferedWriterHook.Fire_err W s entry e h

theorem C6_serialization_error_witness :
    (Entry.mk [1, 2] (some (Error.other 7))).Bytes.2 = some (Error.other 7) ∧
    (BufferedWriterHook.literal [] 0 0 none).Fire idealWriter ⟨[1, 2], some (Error.other 7)⟩
      = some (BufferedWriterHook.literal [] 0 0 none, some (Error.other 7)) :=
  ⟨rfl, C6_serialization_error idealWriter (BufferedWriterHook.literal [] 0 0 none)
    ⟨[1, 2], some (Error.other 7)⟩ (Error.other 7) rfl⟩

/-- C8: with `FlushInterval` left at zero, `initialize` creates the ticker with
a period of 10 seconds (the constant `_defaultFlushInterval`), which is not the
30 seconds the field's documentation announces. -/
theorem C8_default_flush_interval (s : BufferedWriterHook) :
    ( BufferedWriterHook.initialize { s with FlushInterval := 0 }).ticker
      = some { d := 10 * Second, stopped := false } ∧
    (10 * Second : Duration) ≠ 30 * Second := by
  constructor
  · cases hc : s.Clock <;>
      simp [ BufferedWriterHook.initialize, hc, Clock.NewTicker, _defaultFlushInterval]
  · decide

/-- C2: for every sequence of records fired on a fresh hook whose total byte
length is at most the capacity (`Size`, or 262144 bytes when `Size` is 0),
whatever the downstream writer does, every `Fire` returns nil and the
downstream writer has received no call when they are over (its history only
grows, so none was made during them); a following `Sync` hands the downstream
writer exactly the concatenation of the records in call order, in one write
(none if it is empty), and on a writer that accepts every write in full that
`Sync` returns nil and leaves the concatenation delivered and the buffer empty. -/
theorem C2_within_capacity (W : ioWriter) (LogLevels : List Level) (Size : Int)
    (FlushInterval : Duration) (Clock : Option LogrusHook.Clock) (rs : List Bytes)
    (hcap : (rs.flatten.length : Int) ≤ if Size = 0 then 262144 else Size) :
    ∃ s, (BufferedWriterHook.literal LogLevels Size FlushInterval Clock).run W
          (rs.map fun r => Call.Fire (Entry.ofBytes r)) = some (s, rs.map fun _ => none) ∧
      s.Writer = [] ∧ s.buffered = rs.flatten ∧
      ∃ s1 e, s.Sync W = some (s1, e) ∧
        payloads s1.Writer = (if rs.flatten = [] then [] else [rs.flatten]) ∧
        (W.AcceptsAll → e = none ∧ delivered s1.Writer = rs.flatten ∧ s1.buffered = []) := by
  cases rs with
  | nil =>
    refine ⟨_, rfl, rfl, rfl, _, none, BufferedWriterHook.Sync_uninit W _ rfl, rfl, ?_⟩
    intro _
    exact ⟨rfl, rfl, rfl⟩
  | cons r rs =>
    generalize hs0 : BufferedWriterHook.literal LogLevels Size FlushInterval Clock = s0
    have hi0 : s0.initialized = false := by rw [← hs0]; rfl
    have hW0 : s0.Writer = [] := by rw [← hs0]; rfl
    have hS0 : s0.Size = Size := by rw [← hs0]; rfl
    obtain ⟨b0, hw0, he0, hb0, hsz⟩ : ∃ b0, s0.ready.writer = some b0 ∧ b0.err = none ∧
        b0.buf = [] ∧ (r :: rs).flatten.length ≤ b0.size := by
      refine ⟨bufio.NewWriterSize (if s0.Size = 0 then _defaultBufferSize else s0.Size),
        by simp [BufferedWriterHook.ready, hi0, BufferedWriterHook.initialize], rfl, rfl, ?_⟩
      simp only [hS0, bufio.NewWriterSize, _defaultBufferSize]
      by_cases hz : Size = 0
      · simp only [hz, if_true] at hcap ⊢
        simp only [show ¬ ((256 * 1024 : Int) ≤ 0) by decide, if_false]
        omega
      · simp only [hz, if_false] at hcap ⊢
        have hpos : ¬ Size ≤ 0 := by omega
        simp only [hpos, if_false]
        omega
    have hri : s0.ready.initialized = true := by
      simp [BufferedWriterHook.ready, hi0, BufferedWriterHook.initialize]
    have hrW : s0.ready.Writer = [] := by
      simp [BufferedWriterHook.ready, hi0, BufferedWriterHook.initialize, hW0]
    simp only [List.flatten_cons, List.length_append] at hsz
    have hfit : r.length ≤ b0.Available := by
      simp only [bufio.Writer.Available, hb0, List.length_nil]
      omega
    have h1 := BufferedWriterHook.Fire_fits W s0 r b0 hw0 he0 hfit
    have h2 := BufferedWriterHook.run_fits W rs
      { s0.ready with writer := some { b0 with buf := b0.buf ++ r } }
      { b0 with buf := b0.buf ++ r } hri rfl he0
      (by simp only [List.length_append, hb0, List.length_nil]; omega)
    refine ⟨{ s0.ready with writer := some { b0 with buf := b0.buf ++ r ++ rs.flatten } },
      ?_, ?_, ?_, ?_⟩
    · simp only [List.map_cons, BufferedWriterHook.run, BufferedWriterHook.call, Entry.ofBytes]
      rw [h1]
      simp only [Entry.ofBytes] at h2
      simp only [h2]
    · exact hrW
    · simp [BufferedWriterHook.buffered, hb0]
    · simp only [BufferedWriterHook.Sync, hri, if_true]
      refine ⟨_, _, rfl, ?_, ?_⟩
      · simp only
        rw [bufio.Flush_payloads W { b0 with buf := b0.buf ++ r ++ rs.flatten } _ he0, hrW]
        simp [payloads, hb0]
      · intro hW
        simp only
        rw [bufio.Flush_acceptsAll hW { b0 with buf := b0.buf ++ r ++ rs.flatten } _ he0, hrW]
        simp only [hb0, List.nil_append, List.append_assoc, BufferedWriterHook.buffered]
        by_cases hne : r ++ rs.flatten = []
        · simp [hne, delivered]
        · simp [hne, delivered]

theorem C2_within_capacity_witness :
    ((([[1, 2], [3], [4, 5, 6]] : List Bytes).flatten.length : Int)
        ≤ if (8 : Int) = 0 then 262144 else 8) ∧
    ∃ s, (BufferedWriterHook.literal [] 8 0 none).run idealWriter
          (([[1, 2], [3], [4, 5, 6]] : List Bytes).map fun r => Call.Fire (Entry.ofBytes r))
          = some (s, ([[1, 2], [3], [4, 5, 6]] : List Bytes).map fun _ => none) ∧
      s.Writer = [] ∧ s.buffered = ([[1, 2], [3], [4, 5, 6]] : List Bytes).flatten ∧
      ∃ s1 e, s.Sync idealWriter = some (s1, e) ∧
        payloads s1.Writer = (if ([[1, 2], [3], [4, 5, 6]] : List Bytes).flatten = [] then []
          else [([[1, 2], [3], [4, 5, 6]] : List Bytes).flatten]) ∧
        (idealWriter.AcceptsAll →
          e = none ∧ delivered s1.Writer = ([[1, 2], [3], [4, 5, 6]] : List Bytes).flatten ∧
          s1.buffered = []) :=
  ⟨by decide, C2_within_capacity idealWriter [] 8 0 none [[1, 2], [3], [4, 5, 6]] (by decide)⟩

/-- C3: for every sequence of records fired on a hook over a downstream writer
that accepts every write in full and without error, every `Fire` returns nil
and the records split, in order, into groups `gs` of one or more whole records
followed by a rest, such that the payloads of the downstream write calls are
exactly the concatenations of the groups, one call per group, and the buffer
holds the rest: no record is split across two downstream writes. Moreover, when
the next record is larger than the free space while the buffer is non-empty,
`Fire` first writes all buffered bytes downstream in a call of its own, and the
record follows it, whole, in the next call or in the buffer. -/
theorem C3_whole_records (W : ioWriter) (hW : W.AcceptsAll)
    (LogLevels : List Level) (Size : Int) (FlushInterval : Duration)
    (Clock : Option LogrusHook.Clock) (rs : List Bytes) :
    ∃ s, (BufferedWriterHook.literal LogLevels Size FlushInterval Clock).run W
          (rs.map fun r => Call.Fire (Entry.ofBytes r)) = some (s, rs.map fun _ => none) ∧
      (∃ (gs : List (List Bytes)) (rest : List Bytes),
        (∀ g ∈ gs, g ≠ []) ∧ gs.flatten ++ rest = rs ∧
        payloads s.Writer = gs.map List.flatten ∧ s.buffered = rest.flatten) ∧
      ∀ (b : bufio.Writer) (bs : Bytes), s.writer = some b → b.buf ≠ [] →
        bs.length > b.Available →
        ∃ s1 tail, s.Fire W ⟨bs, none⟩ = some (s1, none) ∧
          s1.Writer = s.Writer ++ ⟨b.buf, b.buf.length, none⟩ :: tail ∧
          ((tail = [] ∧ s1.buffered = bs) ∨
           (tail = [⟨bs, bs.length, none⟩] ∧ s1.buffered = [])) := by
  obtain ⟨s, hrun, hs, gs, rest, hg, hcat, hp, hb⟩ :=
    BufferedWriterHook.run_groups hW rs
      (BufferedWriterHook.literal LogLevels Size FlushInterval Clock) [] []
      (BufferedWriterHook.literal_healthy LogLevels Size FlushInterval Clock)
      (by simp) rfl rfl
  refine ⟨s, hrun, ⟨gs, rest, hg, by simpa using hcat, hp, hb⟩, ?_⟩
  intro b bs hw hne hbig
  have hi : s.initialized = true := by
    cases hi : s.initialized
    · rw [(hs.2 hi).1] at hw
      cases hw
    · rfl
  obtain ⟨⟨b1, hw1, he⟩, _⟩ := hs.1 hi
  rw [hw] at hw1
  cases hw1
  have hr : s.ready = s := s.ready_of_initialized hi
  have hfire := BufferedWriterHook.Fire_acceptsAll hW s bs b (by rw [hr]; exact hw) he
  rw [hr] at hfire
  have h1 : ¬ bs.length ≤ b.Available := by omega
  have h4 : bs.length > b.Available ∧ b.buf ≠ [] := ⟨hbig, hne⟩
  by_cases h3 : bs.length ≤ b.size
  · have h3' : ¬ bs.length > b.size := by omega
    refine ⟨_, [], hfire, ?_, Or.inl ⟨rfl, ?_⟩⟩
    · simp only [if_pos h4, if_neg h3', List.append_nil]
    · simp only [BufferedWriterHook.buffered, if_neg h1, if_pos h3]
  · have h3' : bs.length > b.size := by omega
    refine ⟨_, [⟨bs, bs.length, none⟩], hfire, ?_, Or.inr ⟨rfl, ?_⟩⟩
    · simp only [if_pos h4, if_pos h3', List.append_assoc, List.singleton_append]
    · simp only [BufferedWriterHook.buffered, if_neg h1, if_neg h3]

theorem C3_whole_records_witness :
    idealWriter.AcceptsAll ∧
    ∃ s, (BufferedWriterHook.literal [] 4 0 none).run idealWriter
          (([[1, 2, 3], [4, 5], [6, 7, 8, 9, 10], [11]] : List Bytes).map
            fun r => Call.Fire (Entry.ofBytes r))
          = some (s, ([[1, 2, 3], [4, 5], [6, 7, 8, 9, 10], [11]] : List Bytes).map
              fun _ => none) ∧
      (∃ (gs : List (List Bytes)) (rest : List Bytes),
        (∀ g ∈ gs, g ≠ []) ∧
        gs.flatten ++ rest = [[1, 2, 3], [4, 5], [6, 7, 8, 9, 10], [11]] ∧
        payloads s.Writer = gs.map List.flatten ∧ s.buffered = rest.flatten) ∧
      ∀ (b : bufio.Writer) (bs : Bytes), s.writer = some b → b.buf ≠ [] →
        bs.length > b.Available →
        ∃ s1 tail, s.Fire idealWriter ⟨bs, none⟩ = some (s1, none) ∧
          s1.Writer = s.Writer ++ ⟨b.buf, b.buf.length, none⟩ :: tail ∧
          ((tail = [] ∧ s1.buffered = bs) ∨
           (tail = [⟨bs, bs.length, none⟩] ∧ s1.buffered = [])) :=
  ⟨idealWriter_acceptsAll,
   C3_whole_records idealWriter idealWriter_acceptsAll [] 4 0 none
     [[1, 2, 3], [4, 5], [6, 7, 8, 9, 10], [11]]⟩

/-- C7: with `LogLevels` empty, `Logrus2MysqlHook.Levels` returns the list
Info, Error, Fatal, which does not contain `WarnLevel`, whereas its sibling
`BufferedWriterHook.Levels` returns Info, Error, Warn, Fatal. -/
theorem C7_mysql_levels_lack_warn :
    ((Logrus2MysqlHook.literal []).Levels).2 = [InfoLevel, ErrorLevel, FatalLevel] ∧
    WarnLevel ∉ ((Logrus2MysqlHook.literal []).Levels).2 ∧
    ((BufferedWriterHook.literal [] 0 0 none).Levels).2
      = [InfoLevel, ErrorLevel, WarnLevel, FatalLevel] := by
  decide

/-- What the two `Levels` methods return: the configured list when `LogLevels`
is not empty; when it is empty, `BufferedWriterHook.Levels` returns a list whose
elements are exactly Info, Warn, Error and Fatal, and `Logrus2MysqlHook.Levels`
a list whose elements are exactly Info, Error and Fatal. -/
theorem Levels_values (s : BufferedWriterHook) (m : Logrus2MysqlHook) :
    (s.Levels.2 = if s.LogLevels = [] then [InfoLevel, ErrorLevel, WarnLevel, FatalLevel]
                  else s.LogLevels) ∧
    (∀ l, l ∈ (BufferedWriterHook.Levels { s with LogLevels := [] }).2 ↔
      l = InfoLevel ∨ l = WarnLevel ∨ l = ErrorLevel ∨ l = FatalLevel) ∧
    (m.Levels.2 = if m.LogLevels = [] then [InfoLevel, ErrorLevel, FatalLevel]
                  else m.LogLevels) ∧
    (∀ l, l ∈ (Logrus2MysqlHook.Levels { m with LogLevels := [] }).2 ↔
      l = InfoLevel ∨ l = ErrorLevel ∨ l = FatalLevel) := by
  refine ⟨?_, ?_, ?_, ?_⟩
  · by_cases h : s.LogLevels = [] <;> simp [BufferedWriterHook.Levels, h]
  · intro l
    simp only [BufferedWriterHook.Levels, List.length_nil, if_true, List.mem_cons,
      List.mem_singleton, List.not_mem_nil, or_false]
    tauto
  · by_cases h : m.LogLevels = [] <;> simp [Logrus2MysqlHook.Levels, h]
  · intro l
    simp [Logrus2MysqlHook.Levels]

/-- C4: the first `Stop` on an initialized hook need not return. After
`Fire [1, 2]` on a fresh hook of size 8 over the all-accepting writer, a tick
arrives and `flushLoop` takes it. On the state reached the hook is initialized
and not stopped, `[1, 2]` is buffered and nothing was written downstream, and
`Stop` does not return, so the record is never flushed. In the transition
system of Part 3 this is the state reached by the tick and the loop's receive,
and after the two steps of `Stop` up to `<-s.done` no goroutine can move:
`Stop` holds `s.mu`, `flushLoop` waits for it in `Sync`, and `s.done` stays
open. -/
theorem C4_first_stop_blocks :
    (((BufferedWriterHook.literal [] 8 0 none).Fire idealWriter ⟨[1, 2], none⟩).bind fun r =>
        (r.1.tickEvent).bind BufferedWriterHook.loopReceive) = some midTick ∧
    midTick.initialized = true ∧ midTick.stopped = false ∧
    midTick.buffered = [1, 2] ∧ midTick.Writer = [] ∧
    midTick.Stop idealWriter = none ∧
    FlushSys.running.exec [Action.event, Action.loopEvent] = some midTick.toFlushSys ∧
    ∃ σ, midTick.toFlushSys.exec [Action.stop, Action.stop] = some σ ∧
      σ.stopPC = StopPC.waitDone ∧ σ.mu = some Goroutine.Stop ∧
      σ.loopPC = LoopPC.syncLock ∧ σ.doneClosed = false ∧ ∀ a, σ.step a = none := by
  refine ⟨by decide, rfl, rfl, rfl, rfl, by decide, by decide, _, rfl, rfl, rfl, rfl, rfl, ?_⟩
  intro a
  cases a <;> rfl

/-- C10 as stated fails on a hook whose final flush failed: after `Fire [1]` and
`Stop` over the failing writer the hook is initialized and stopped, the record
`[2]` fits in the free space, and yet `Fire` returns the stored error and
appends nothing. -/
theorem C10_fire_after_failed_stop :
    (BufferedWriterHook.literal [] 8 0 none).run failingWriter
        [Call.Fire ⟨[1], none⟩, Call.Stop]
      = some (stoppedOnError, [none, some (Error.other 5)]) ∧
    stoppedOnError.initialized = true ∧ stoppedOnError.stopped = true ∧
    stoppedOnError.writer = some { err := some (Error.other 5), buf := [1], size := 8 } ∧
    ([2] : Bytes).length
      ≤ ({ err := some (Error.other 5), buf := [1], size := 8 } : bufio.Writer).Available ∧
    stoppedOnError.Fire failingWriter ⟨[2], none⟩
      = some (stoppedOnError, some (Error.other 5)) := by
  decide

/-- C10, amended: on every initialized hook on which `Stop` has completed and
whose buffer carries no stored write error, whatever the downstream writer, a
later `Fire` of a record that fits in the free space returns nil and appends
the record to the buffer without any downstream write; any number of `Stop`
calls after it return nil and leave the state, the record still buffered,
unchanged; on an all-accepting writer a `Sync` then writes the buffer, record
included, downstream. -/
theorem C10_fire_after_stop (W : ioWriter) (s : BufferedWriterHook) (b : bufio.Writer)
    (bs : Bytes) (hi : s.initialized = true) (hst : s.stopped = true)
    (hw : s.writer = some b) (he : b.err = none) (hfit : bs.length ≤ b.Available) :
    ∃ s1, s.Fire W ⟨bs, none⟩ = some (s1, none) ∧
      s1.buffered = s.buffered ++ bs ∧ s1.Writer = s.Writer ∧
      (∀ n, s1.run W (List.replicate n Call.Stop) = some (s1, List.replicate n none)) ∧
      (W.AcceptsAll → s.buffered ++ bs ≠ [] →
        ∃ s2, s1.Sync W = some (s2, none) ∧
          payloads s2.Writer = payloads s.Writer ++ [s.buffered ++ bs]) := by
  have hr : s.ready = s := s.ready_of_initialized hi
  have hfire := BufferedWriterHook.Fire_fits W s bs b (by rw [hr]; exact hw) he hfit
  rw [hr] at hfire
  have hb : s.buffered = b.buf := by simp [BufferedWriterHook.buffered, hw]
  refine ⟨_, hfire, ?_, rfl, ?_, ?_⟩
  · simp [BufferedWriterHook.buffered, hw]
  · intro n
    induction n with
    | zero => rfl
    | succ n ih =>
      have hS := BufferedWriterHook.Stop_stopped W
        { s with writer := some { b with buf := b.buf ++ bs } } hi hst
      simp only [List.replicate_succ, BufferedWriterHook.run, BufferedWriterHook.call]
      rw [hS]
      simp only
      rw [ih]
  · intro hW hne
    rw [hb] at hne
    refine ⟨_, BufferedWriterHook.Sync_acceptsAll hW _ { b with buf := b.buf ++ bs } hi rfl he,
      ?_⟩
    simp only [hne, if_false, payloads_snoc, hb]

theorem C10_fire_after_stop_witness :
    stoppedClean.initialized = true ∧ stoppedClean.stopped = true ∧
    stoppedClean.writer = some { err := none, buf := [], size := 8 } ∧
    ({ err := none, buf := [], size := 8 } : bufio.Writer).err = none ∧
    ([2, 3] : Bytes).length ≤ ({ err := none, buf := [], size := 8 } : bufio.Writer).Available ∧
    ∃ s1, stoppedClean.Fire idealWriter ⟨[2, 3], none⟩ = some (s1, none) ∧
      s1.buffered = stoppedClean.buffered ++ [2, 3] ∧ s1.Writer = stoppedClean.Writer ∧
      (∀ n, s1.run idealWriter (List.replicate n Call.Stop)
        = some (s1, List.replicate n none)) ∧
      (idealWriter.AcceptsAll → stoppedClean.buffered ++ [2, 3] ≠ [] →
        ∃ s2, s1.Sync idealWriter = some (s2, none) ∧
          payloads s2.Writer = payloads stoppedClean.Writer ++ [stoppedClean.buffered ++ [2, 3]]) :=
  ⟨rfl, rfl, rfl, rfl, by decide,
   C10_fire_after_stop idealWriter stoppedClean { err := none, buf := [], size := 8 } [2, 3]
     rfl rfl rfl rfl (by decide)⟩

/-- C9: the code can deadlock in `Stop`. For the buffered hook: a tick arrives,
`flushLoop` takes the tick case of its `select`, then `Stop` takes the mutex,
closes `s.stop` and waits on `s.done`. In the state reached `Stop` holds the
mutex at `<-s.done`, `flushLoop` is blocked at the `s.mu.Lock()` of `Sync`, no
goroutine can move, and so no schedule from there lets `Stop` return. For the
MySQL hook the same happens when `flush` has taken an entry from the queue. -/
theorem C9_stop_deadlock :
    (∃ σ, FlushSys.running.exec [Action.event, Action.loopEvent, Action.stop, Action.stop]
        = some σ ∧
      σ.stopPC = StopPC.waitDone ∧ σ.mu = some Goroutine.Stop ∧
      σ.loopPC = LoopPC.syncLock ∧ σ.doneClosed = false ∧
      (∀ a, σ.step a = none) ∧
      ∀ as σ1, σ.exec as = some σ1 → σ1.stopPC ≠ StopPC.returned) ∧
    (∃ σ, MysqlSys.running.exec [Action.loopEvent, Action.stop, Action.stop] = some σ ∧
      σ.stopPC = StopPC.waitDone ∧ σ.mu = some Goroutine.Stop ∧
      σ.loopPC = LoopPC.syncLock ∧ σ.doneClosed = false ∧
      (∀ a, σ.step a = none) ∧
      ∀ as σ1, σ.exec as = some σ1 → σ1.stopPC ≠ StopPC.returned) := by
  constructor
  · refine ⟨_, rfl, rfl, rfl, rfl, rfl, ?_, ?_⟩
    · intro a
      cases a <;> rfl
    · intro as σ1 h
      cases as with
      | nil =>
        cases h
        decide
      | cons a as =>
        cases a <;> cases h
  · refine ⟨_, rfl, rfl, rfl, rfl, rfl, ?_, ?_⟩
    · intro a
      cases a <;> rfl
    · intro as σ1 h
      cases as with
      | nil =>
        cases h
        decide
      | cons a as =>
        cases a <;> cases h

end LogrusHook
